import Mathlib

/-!
# cert-expiration-verifier: `VerifyExpiration`

A shallow embedding of `pkg/expiration/expiration.go` and of the report type of
`apis/v1alpha1/types.go`, followed by theorems about it.

Modelling conventions

* An instant (`time.Time`, `metav1.Time`) is its wall-clock position, a count of
  nanoseconds since the Unix epoch.  The certificate timestamps carry no monotonic
  reading, so `Time.After` compares wall-clock positions only.  The range of
  `time.Time` (64-bit seconds) is not modelled: instants are unbounded integers.
* A `time.Duration` is a signed 64-bit count of nanoseconds; products of durations
  wrap around modulo `2^64`, as Go's `int64` multiplication does.
* `time.Now()` is a stateful clock: `clock k` is the reading returned by the `k`-th
  call (counted from zero) made during one invocation of `VerifyExpiration`.
* The client is represented by what its `List` call returned: the certificate list
  and the error value.
* A Go slice is a `List`; the nil slice and the empty slice are both `[]`.
* A Go `error` built by `fmt.Errorf` is its message; `none` is the nil error.
* A run-time panic (nil pointer dereference) is the outer `none` of the result.
-/

namespace CertExpiration

/-! ## Time -/

/-- An instant: nanoseconds since the Unix epoch (wall clock). -/
structure Time where
  unixNano : Int
deriving DecidableEq, Repr

/-- Two's-complement reduction of an integer to the range of `int64`. -/
def wrapInt64 (x : Int) : Int := (x + 2 ^ 63) % 2 ^ 64 - 2 ^ 63

/-- Go `time.Duration`: an `int64` count of nanoseconds. -/
structure Duration where
  ns : Int
deriving DecidableEq, Repr

/-- Conversion `time.Duration(days)` of a Go `int` (64 bits wide): the identity on the
range of `int64`. -/
def Duration.ofInt (n : Int) : Duration := ⟨wrapInt64 n⟩

/-- Multiplication of two `int64` durations, wrapping on overflow. -/
def Duration.mul (a b : Duration) : Duration := ⟨wrapInt64 (a.ns * b.ns)⟩

/-- Constant `time.Hour`, in nanoseconds. -/
def Hour : Duration := ⟨3600000000000⟩

/-- Method `t.Add(d)`. -/
def Time.Add (t : Time) (d : Duration) : Time := ⟨t.unixNano + d.ns⟩

/-- Method `t.After(u)`: `t` is strictly later than `u`. -/
def Time.After (t u : Time) : Bool := decide (u.unixNano < t.unixNano)

/-! ## Data model -/

/-- The fields of a cert-manager `Certificate` that `VerifyExpiration` reads. -/
structure Certificate where
  /-- Result of `GetNamespace()`. -/
  Namespace : String
  /-- Result of `GetName()`. -/
  Name : String
  /-- Field `Spec.DNSNames`. -/
  DNSNames : List String
  /-- Field `Status.NotAfter`, a pointer that may be nil. -/
  NotAfter : Option Time
deriving DecidableEq, Repr

/-- Type `CertificateList`. -/
structure CertificateList where
  Items : List Certificate
deriving DecidableEq, Repr

/-- Type `CertificateError` of `apis/v1alpha1/types.go`. -/
structure CertificateError where
  DNSNames : List String
  Namespace : String
  CertificateName : String
  ExpirationDate : Time
  Reason : String
  Owner : String
deriving DecidableEq, Repr

/-- An error value returned by the API client: the status reason that
`apierrors.ReasonForError` reports for it (`""` when unknown) and its text. -/
structure APIError where
  Reason : String
  Message : String
deriving DecidableEq, Repr

/-- Library function `apierrors.IsForbidden`: false on the nil error, otherwise
whether the status reason is `metav1.StatusReasonForbidden`. -/
def IsForbidden : Option APIError → Bool
  | none => false
  | some e => e.Reason == "Forbidden"

/-! ## The evaluator -/

/-- Value of `fmt.Sprintf("Certificate is about to expire in less than %d days", int(days))`. -/
def aboutToExpireMsg (days : Int) : String :=
  "Certificate is about to expire in less than " ++ toString days ++ " days"

/-- Value of `fmt.Sprintf("Certificate is expired and should be renewed or revoked")`. -/
def expiredMsg : String := "Certificate is expired and should be renewed or revoked"

/-- The variables that live across iterations of the `for` loop: the accumulated
slice and the number of clock readings taken so far. -/
structure LoopState where
  certificateErrors : List CertificateError
  readings : Nat
deriving DecidableEq, Repr

/-- One iteration of the `for ... range certificateList.Items` loop
(`expiration.go`, lines 52-71).  The result is `none` when the iteration panics. -/
def loopBody (clock : Nat → Time) (stillValid : Time) (days : Int)
    (s : LoopState) (certificate : Certificate) : Option LoopState :=
  -- var msg string
  let msg : String := ""
  -- if certificate.Status.NotAfter != nil { ... }
  let r : String × Nat :=
    match certificate.NotAfter with
    | some notAfter =>
      let msg := if stillValid.After notAfter then aboutToExpireMsg days else msg
      let msg := if (clock s.readings).After notAfter then expiredMsg else msg
      (msg, s.readings + 1)
    | none => (msg, s.readings)
  -- if msg != "" { ... }
  if r.1 != "" then
    -- *certificate.Status.NotAfter
    match certificate.NotAfter with
    | some notAfter =>
      some ⟨s.certificateErrors ++
        [{ DNSNames := certificate.DNSNames,
           Namespace := certificate.Namespace,
           CertificateName := certificate.Name,
           ExpirationDate := notAfter,
           Reason := r.1,
           Owner := "" }], r.2⟩
    | none => none
  else
    some ⟨s.certificateErrors, r.2⟩

/-- The `for` loop over the items, in order. -/
def forRange (clock : Nat → Time) (stillValid : Time) (days : Int) :
    LoopState → List Certificate → Option LoopState
  | s, [] => some s
  | s, certificate :: rest =>
    match loopBody clock stillValid days s certificate with
    | some s1 => forRange clock stillValid days s1 rest
    | none => none

/-- The two successive values of the variable `msg` in one iteration on a record whose
`NotAfter` is present (`expiration.go`, lines 52-60): the candidate left by the horizon
test of lines 54-56, and the value left by the expiration test of lines 58-60, where
`now` is the reading of `time.Now()` at line 58. -/
def msgTrace (stillValid now : Time) (days : Int) (notAfter : Time) : String × String :=
  -- var msg string
  let msg : String := ""
  let msg := if stillValid.After notAfter then aboutToExpireMsg days else msg
  (msg, if now.After notAfter then expiredMsg else msg)

/-- The warning horizon of line 49:
`time.Now().Add(time.Duration(days) * time.Hour * 24)`. -/
def stillValidAt (now : Time) (days : Int) : Time :=
  now.Add (((Duration.ofInt days).mul Hour).mul ⟨24⟩)

/-- Function `VerifyExpiration(client, days)`.  `certificateList` and `err` are what the
client's `List` call returned.  The result is the pair `(reports, error)`, or `none`
if the call panics. -/
def VerifyExpiration (clock : Nat → Time) (certificateList : CertificateList)
    (err : Option APIError) (days : Int) :
    Option (List CertificateError × Option String) :=
  let certificateErrors : List CertificateError := []
  if IsForbidden err then
    some ([], some "Permission denied while getting the certificates")
  else if err.isSome then
    some ([], some "Failed to communicate with Kubernetes cluster")
  else if certificateList.Items.length < 1 then
    some (certificateErrors, none)
  else
    let stillValid := stillValidAt (clock 0) days
    match forRange clock stillValid days ⟨certificateErrors, 1⟩ certificateList.Items with
    | some s => some (s.certificateErrors, none)
    | none => none

/-! ## Declarative description of one pass -/

/-- Report built from the fields of a record, its expiration timestamp and a reason. -/
def reportOf (c : Certificate) (notAfter : Time) (reason : String) : CertificateError :=
  { DNSNames := c.DNSNames, Namespace := c.Namespace, CertificateName := c.Name,
    ExpirationDate := notAfter, Reason := reason, Owner := "" }

/-- Spec-side classification of one record (spec section 4.1, step 4): skip a record
without expiration timestamp; otherwise the candidate reason is "expiring soon" when the
warning horizon is strictly after the timestamp, it is overwritten by "expired" when the
current time is strictly after the timestamp, and a report is built if a reason was set. -/
def recordReport (warningHorizon now : Time) (days : Int) (c : Certificate) :
    Option CertificateError :=
  match c.NotAfter with
  | none => none
  | some notAfter =>
    let candidate : Option String :=
      if warningHorizon.After notAfter then some (aboutToExpireMsg days) else none
    let candidate : Option String :=
      if now.After notAfter then some expiredMsg else candidate
    candidate.map (reportOf c notAfter)

/-- Index of the clock reading after a record has been processed, when `k` readings had
been taken before it: the loop reads the clock only for a record with a timestamp. -/
def nextReading (k : Nat) (c : Certificate) : Nat :=
  if c.NotAfter.isSome then k + 1 else k

/-- Spec-side pass over the records, aligned with the input: entry `i` is the report of
record `i`, or `none` if the record is skipped.  `k` is the number of clock readings
taken before the first record. -/
def recordReports (clock : Nat → Time) (warningHorizon : Time) (days : Int) :
    Nat → List Certificate → List (Option CertificateError)
  | _, [] => []
  | k, c :: cs =>
    recordReport warningHorizon (clock k) days c ::
      recordReports clock warningHorizon days (nextReading k c) cs

/-- Spec-side classification of one record by expiration alone: a record is reported,
with the expired reason, exactly when its timestamp is present and `now` is strictly
after it. -/
def expiredReport (now : Time) (c : Certificate) : Option CertificateError :=
  match c.NotAfter with
  | some notAfter =>
    if now.After notAfter then some (reportOf c notAfter expiredMsg) else none
  | none => none

/-- The exact horizon of the specification: the current time plus `days` days of
86400 seconds, computed in unbounded integers. -/
def exactHorizon (now : Time) (days : Int) : Time :=
  ⟨now.unixNano + days * 86400000000000⟩

/-! ## Sample inputs -/

/-- Sample clock reading: 2020-10-16T10:10:00Z. -/
def sampleNow : Time := ⟨1602843000000000000⟩

/-- Sample clock that returns `sampleNow` at every reading. -/
def sampleClock : Nat → Time := fun _ => sampleNow

/-- Record of the test suite that expired on 2010-10-16T10:10:00Z. -/
def expiredCert : Certificate :=
  { Namespace := "bla1", Name := "expiredcert",
    DNSNames := ["expired1.bla.com", "expired2.blo.com"],
    NotAfter := some ⟨1287223800000000000⟩ }

/-- Record of the test suite that expires seven days after `sampleNow`. -/
def toExpireCert : Certificate :=
  { Namespace := "bla2", Name := "toexpirecert",
    DNSNames := ["toexpire.bla.com", "toexpire.blo.com"],
    NotAfter := some ⟨1603447800000000000⟩ }

/-- Record of the test suite that expires one year after `sampleNow`. -/
def farExpireCert : Certificate :=
  { Namespace := "bla3", Name := "farexpirecert",
    DNSNames := ["farexpire.bla.com", "farexpire.blo.com"],
    NotAfter := some ⟨1634379000000000000⟩ }

/-- Record that has not been issued yet: no expiration timestamp. -/
def pendingCert : Certificate :=
  { Namespace := "bla4", Name := "pendingcert", DNSNames := ["pending.bla.com"],
    NotAfter := none }

/-- Record that expired one day before `sampleNow`. -/
def yesterdayCert : Certificate :=
  { Namespace := "bla5", Name := "yesterdaycert", DNSNames := ["yesterday.bla.com"],
    NotAfter := some ⟨1602756600000000000⟩ }

/-- Sample clock that advances by one second at every reading, starting at `sampleNow`. -/
def tickingClock : Nat → Time := fun k => ⟨1602843000000000000 + 1000000000 * (k : Int)⟩

/-- Record that expires at `sampleNow` exactly. -/
def expiringNowCert : Certificate :=
  { Namespace := "bla6", Name := "expiringnowcert", DNSNames := ["now.bla.com"],
    NotAfter := some ⟨1602843000000000000⟩ }

/-! ## Lemmas on the reason strings -/

theorem aboutToExpireMsg_data (days : Int) :
    (aboutToExpireMsg days).data =
      "Certificate is about to expire in less than ".data ++
        ((toString days).data ++ " days".data) := by
  simp [aboutToExpireMsg, String.data_append]

theorem aboutToExpireMsg_ne_empty (days : Int) : aboutToExpireMsg days ≠ "" := by
  intro h
  have h1 := congrArg String.data h
  rw [aboutToExpireMsg_data] at h1
  simp at h1

theorem expiredMsg_ne_empty : expiredMsg ≠ "" := by decide

theorem aboutToExpireMsg_ne_expiredMsg (days : Int) : aboutToExpireMsg days ≠ expiredMsg := by
  intro h
  have h1 := congrArg (fun s => s.data.take 16) h
  simp only [aboutToExpireMsg_data] at h1
  rw [List.take_append_of_le_length (by decide)] at h1
  revert h1
  decide


/-! ## The loop computes the declarative pass -/

theorem loopBody_eq (clock : Nat → Time) (stillValid : Time) (days : Int)
    (s : LoopState) (c : Certificate) :
    loopBody clock stillValid days s c =
      some ⟨s.certificateErrors ++
              (recordReport stillValid (clock s.readings) days c).toList,
            nextReading s.readings c⟩ := by
  cases hna : c.NotAfter with
  | none => simp [loopBody, recordReport, nextReading, hna]
  | some notAfter =>
    by_cases h1 : (clock s.readings).After notAfter = true
    · simp [loopBody, recordReport, nextReading, hna, h1, expiredMsg_ne_empty, reportOf]
    · by_cases h2 : stillValid.After notAfter = true
      · simp [loopBody, recordReport, nextReading, hna, h1, h2,
          aboutToExpireMsg_ne_empty, reportOf]
      · simp [loopBody, recordReport, nextReading, hna, h1, h2]

theorem forRange_eq (clock : Nat → Time) (stillValid : Time) (days : Int)
    (items : List Certificate) (s : LoopState) :
    ∃ n, forRange clock stillValid days s items =
      some ⟨s.certificateErrors ++
              (recordReports clock stillValid days s.readings items).reduceOption, n⟩ := by
  induction items generalizing s with
  | nil => exact ⟨s.readings, by simp [forRange, recordReports]⟩
  | cons c cs ih =>
    obtain ⟨n, hn⟩ := ih ⟨s.certificateErrors ++
      (recordReport stillValid (clock s.readings) days c).toList, nextReading s.readings c⟩
    refine ⟨n, ?_⟩
    simp only [forRange, loopBody_eq, hn, recordReports]
    cases recordReport stillValid (clock s.readings) days c <;>
      simp [List.reduceOption_cons_of_none, List.reduceOption_cons_of_some]

/-- With a successful list call the evaluator returns the non-skipped entries of the
declarative pass, in order, and the nil error. -/
theorem VerifyExpiration_ok (clock : Nat → Time) (items : List Certificate) (days : Int) :
    VerifyExpiration clock ⟨items⟩ none days =
      some ((recordReports clock (stillValidAt (clock 0) days) days 1 items).reduceOption,
            none) := by
  cases items with
  | nil => simp [VerifyExpiration, IsForbidden, recordReports]
  | cons c cs =>
    obtain ⟨n, hn⟩ := forRange_eq clock (stillValidAt (clock 0) days) days (c :: cs) ⟨[], 1⟩
    simp [VerifyExpiration, IsForbidden, hn]

theorem recordReports_length (clock : Nat → Time) (h : Time) (days : Int)
    (items : List Certificate) (k : Nat) :
    (recordReports clock h days k items).length = items.length := by
  induction items generalizing k with
  | nil => simp [recordReports]
  | cons c cs ih => simp [recordReports, ih]

theorem recordReports_append (clock : Nat → Time) (h : Time) (days : Int)
    (xs ys : List Certificate) (k : Nat) :
    ∃ k2, k ≤ k2 ∧ recordReports clock h days k (xs ++ ys) =
      recordReports clock h days k xs ++ recordReports clock h days k2 ys := by
  induction xs generalizing k with
  | nil => exact ⟨k, le_refl k, by simp [recordReports]⟩
  | cons c cs ih =>
    obtain ⟨k2, hk, hk2⟩ := ih (nextReading k c)
    refine ⟨k2, le_trans ?_ hk, by simp [recordReports, hk2]⟩
    unfold nextReading
    split <;> omega

theorem recordReports_const (now h : Time) (days : Int) (items : List Certificate) (k : Nat) :
    recordReports (fun _ => now) h days k items = items.map (recordReport h now days) := by
  induction items generalizing k with
  | nil => simp [recordReports]
  | cons c cs ih => simp [recordReports, ih]

/-- Every report of one record copies the record's fields and carries one of the two
reasons, decided by the two comparisons. -/
theorem recordReport_some (h now : Time) (days : Int) (c : Certificate) (r : CertificateError)
    (hr : recordReport h now days c = some r) :
    ∃ notAfter, c.NotAfter = some notAfter ∧
      (now.After notAfter = true ∨ h.After notAfter = true) ∧
      r = reportOf c notAfter
        (if now.After notAfter = true then expiredMsg else aboutToExpireMsg days) := by
  cases hna : c.NotAfter with
  | none => simp [recordReport, hna] at hr
  | some notAfter =>
    refine ⟨notAfter, rfl, ?_⟩
    by_cases h1 : now.After notAfter = true
    · simp [recordReport, hna, h1] at hr
      simp [h1, hr]
    · by_cases h2 : h.After notAfter = true
      · simp [recordReport, hna, h1, h2] at hr
        simp [h1, h2, hr]
      · simp [recordReport, hna, h1, h2] at hr

theorem recordReport_isSome (h now : Time) (days : Int) (c : Certificate) :
    (recordReport h now days c).isSome = true ↔
      ∃ notAfter, c.NotAfter = some notAfter ∧
        (h.After notAfter = true ∨ now.After notAfter = true) := by
  cases hna : c.NotAfter with
  | none => simp [recordReport, hna]
  | some notAfter =>
    by_cases h1 : now.After notAfter = true <;> by_cases h2 : h.After notAfter = true <;>
      simp [recordReport, hna, h1, h2]

/-! ## The duration product -/

theorem wrapInt64_of_inRange (x : Int) (h1 : -9223372036854775808 ≤ x)
    (h2 : x < 9223372036854775808) : wrapInt64 x = x := by
  unfold wrapInt64
  norm_num
  have h : (x + 9223372036854775808) % 18446744073709551616 = x + 9223372036854775808 :=
    Int.emod_eq_of_lt (by omega) (by omega)
  omega

/-- As long as the threshold is at most 106751 days in absolute value, the horizon the code
computes is the exact one. -/
theorem stillValidAt_eq_exactHorizon (now : Time) (days : Int)
    (h1 : -106751 ≤ days) (h2 : days ≤ 106751) :
    stillValidAt now days = exactHorizon now days := by
  have e1 : wrapInt64 days = days := wrapInt64_of_inRange days (by omega) (by omega)
  have e2 : wrapInt64 (days * 3600000000000) = days * 3600000000000 :=
    wrapInt64_of_inRange _ (by omega) (by omega)
  have e3 : wrapInt64 (days * 3600000000000 * 24) = days * 3600000000000 * 24 :=
    wrapInt64_of_inRange _ (by omega) (by omega)
  simp only [stillValidAt, exactHorizon, Time.Add, Duration.mul, Duration.ofInt, Hour,
    e1, e2, e3]
  congr 1
  omega

/-! ## Position of one record's report in the output -/

/-- The output for `pre ++ c :: post` is the output for `pre`, then what the record `c`
yields at the clock reading `k` taken for it, then the reports of `post`. -/
theorem VerifyExpiration_split (clock : Nat → Time) (pre post : List Certificate)
    (c : Certificate) (days : Int) :
    ∃ before after k,
      VerifyExpiration clock ⟨pre⟩ none days = some (before, none) ∧
      VerifyExpiration clock ⟨pre ++ c :: post⟩ none days =
        some (before ++
          ((recordReport (stillValidAt (clock 0) days) (clock k) days c).toList ++ after),
          none) := by
  obtain ⟨k, _, hk⟩ :=
    recordReports_append clock (stillValidAt (clock 0) days) days pre (c :: post) 1
  refine ⟨_, (recordReports clock (stillValidAt (clock 0) days) days
    (nextReading k c) post).reduceOption, k, VerifyExpiration_ok clock pre days, ?_⟩
  rw [VerifyExpiration_ok, hk, List.reduceOption_append]
  cases hr : recordReport (stillValidAt (clock 0) days) (clock k) days c <;>
    simp [recordReports, hr, List.reduceOption_cons_of_none, List.reduceOption_cons_of_some]

/-- With a clock that stands still the output is the list of the per-record reports. -/
theorem VerifyExpiration_const (now : Time) (items : List Certificate) (days : Int) :
    VerifyExpiration (fun _ => now) ⟨items⟩ none days =
      some (items.filterMap (recordReport (stillValidAt now days) now days), none) := by
  rw [VerifyExpiration_ok, recordReports_const, List.reduceOption, List.filterMap_map]
  rfl

/-! ## Alignment of the reports with the records -/

theorem recordReports_aligned (clock : Nat → Time) (h : Time) (days : Int)
    (items : List Certificate) (k i : Nat) (c : Certificate) (r : CertificateError)
    (hc : items[i]? = some c)
    (hr : (recordReports clock h days k items)[i]? = some (some r)) :
    ∃ k2, recordReport h (clock k2) days c = some r := by
  induction items generalizing k i with
  | nil => simp at hc
  | cons x xs ih =>
    cases i with
    | zero =>
      simp only [List.getElem?_cons_zero, Option.some.injEq] at hc
      simp only [recordReports, List.getElem?_cons_zero, Option.some.injEq] at hr
      exact ⟨k, hc ▸ hr⟩
    | succ j =>
      simp only [List.getElem?_cons_succ] at hc
      simp only [recordReports, List.getElem?_cons_succ] at hr
      exact ih (nextReading k x) j hc hr

theorem recordReports_mem (clock : Nat → Time) (h : Time) (days : Int)
    (items : List Certificate) (k : Nat) (r : CertificateError)
    (hr : some r ∈ recordReports clock h days k items) :
    ∃ c ∈ items, ∃ k2, recordReport h (clock k2) days c = some r := by
  induction items generalizing k with
  | nil => simp [recordReports] at hr
  | cons x xs ih =>
    simp only [recordReports, List.mem_cons] at hr
    rcases hr with hr | hr
    · exact ⟨x, List.mem_cons_self x xs, k, hr.symm⟩
    · obtain ⟨c, hc, k2, hk2⟩ := ih (nextReading k x) hr
      exact ⟨c, List.mem_cons_of_mem x hc, k2, hk2⟩

/-- The reported records, in output order, form a sub-sequence of the input. -/
theorem recordReports_kept (clock : Nat → Time) (h : Time) (days : Int)
    (items : List Certificate) (k : Nat) :
    ∃ kept : List Certificate, kept.Sublist items ∧
      List.Forall₂
        (fun c r => ∃ notAfter, c.NotAfter = some notAfter ∧ r = reportOf c notAfter r.Reason)
        kept (recordReports clock h days k items).reduceOption := by
  induction items generalizing k with
  | nil => exact ⟨[], List.Sublist.slnil, by simp [recordReports]⟩
  | cons x xs ih =>
    obtain ⟨kept, hs, hf⟩ := ih (nextReading k x)
    cases hr : recordReport h (clock k) days x with
    | none =>
      refine ⟨kept, List.Sublist.cons x hs, ?_⟩
      simpa [recordReports, hr, List.reduceOption_cons_of_none] using hf
    | some r =>
      refine ⟨x :: kept, List.Sublist.cons₂ x hs, ?_⟩
      obtain ⟨notAfter, hna, -, hrep⟩ := recordReport_some h (clock k) days x r hr
      simp only [recordReports, hr, List.reduceOption_cons_of_some]
      refine List.Forall₂.cons ⟨notAfter, hna, ?_⟩ hf
      rw [hrep]
      rfl

/-- Every returned report is what one record of the list yields at some clock reading. -/
theorem VerifyExpiration_mem (clock : Nat → Time) (list : CertificateList)
    (err : Option APIError) (days : Int) (out : List CertificateError) (e : Option String)
    (h : VerifyExpiration clock list err days = some (out, e))
    (r : CertificateError) (hr : r ∈ out) :
    ∃ c ∈ list.Items, ∃ k,
      recordReport (stillValidAt (clock 0) days) (clock k) days c = some r := by
  cases err with
  | some a =>
    by_cases hf : IsForbidden (some a) = true
    · simp [VerifyExpiration, hf] at h
      rw [h.1] at hr
      simp at hr
    · simp [VerifyExpiration, hf] at h
      rw [h.1] at hr
      simp at hr
  | none =>
    obtain ⟨items⟩ := list
    rw [VerifyExpiration_ok] at h
    simp only [Option.some.injEq, Prod.mk.injEq] at h
    rw [← h.1, List.reduceOption_mem_iff] at hr
    exact recordReports_mem clock _ days items 1 r hr

/-- A failed list call returns no reports and one of the two fixed messages. -/
theorem VerifyExpiration_failed (clock : Nat → Time) (list : CertificateList)
    (a : APIError) (days : Int) :
    VerifyExpiration clock list (some a) days =
      some ([], some (if IsForbidden (some a) = true
        then "Permission denied while getting the certificates"
        else "Failed to communicate with Kubernetes cluster")) := by
  by_cases hf : IsForbidden (some a) = true <;> simp [VerifyExpiration, hf]

/-- With a clock that stands still at `now` and a threshold of at most 106751 days in
absolute value, the record `c` of `pre ++ c :: post` contributes a report exactly when
its timestamp is present and the exact horizon or `now` is strictly after it. -/
theorem VerifyExpiration_const_split_inRange (now : Time) (pre post : List Certificate)
    (c : Certificate) (days : Int) (h1 : -106751 ≤ days) (h2 : days ≤ 106751) :
    ∃ (before : List CertificateError) (mid : Option CertificateError)
        (after : List CertificateError),
      VerifyExpiration (fun _ => now) ⟨pre⟩ none days = some (before, none) ∧
      VerifyExpiration (fun _ => now) ⟨post⟩ none days = some (after, none) ∧
      VerifyExpiration (fun _ => now) ⟨pre ++ c :: post⟩ none days =
        some (before ++ (mid.toList ++ after), none) ∧
      (mid.isSome = true ↔ ∃ notAfter, c.NotAfter = some notAfter ∧
        ((exactHorizon now days).After notAfter = true ∨ now.After notAfter = true)) := by
  refine ⟨_, recordReport (exactHorizon now days) now days c, _,
    VerifyExpiration_const now pre days, VerifyExpiration_const now post days, ?_,
    recordReport_isSome _ _ _ _⟩
  rw [VerifyExpiration_const, stillValidAt_eq_exactHorizon now days h1 h2,
    List.filterMap_append, List.filterMap_cons]
  cases recordReport (exactHorizon now days) now days c <;> simp

/-! ## Clock reading taken for a record, thresholds compared -/

theorem recordReports_append_count (clock : Nat → Time) (h : Time) (days : Int)
    (xs ys : List Certificate) (k : Nat) :
    recordReports clock h days k (xs ++ ys) =
      recordReports clock h days k xs ++
        recordReports clock h days (k + xs.countP (fun x => x.NotAfter.isSome)) ys := by
  induction xs generalizing k with
  | nil => simp [recordReports]
  | cons x xs ih =>
    have hk : nextReading k x + xs.countP (fun x => x.NotAfter.isSome) =
        k + (x :: xs).countP (fun x => x.NotAfter.isSome) := by
      rw [List.countP_cons]
      unfold nextReading
      split <;> omega
    show recordReport h (clock k) days x ::
        recordReports clock h days (nextReading k x) (xs ++ ys) =
      recordReport h (clock k) days x :: recordReports clock h days (nextReading k x) xs ++
        recordReports clock h days (k + (x :: xs).countP (fun x => x.NotAfter.isSome)) ys
    rw [ih, hk]
    rfl

/-- The output for `pre ++ c :: post`, with the index of the clock reading taken for `c`:
one reading is taken before the loop and one for each earlier record with a timestamp. -/
theorem VerifyExpiration_split_at (clock : Nat → Time) (pre post : List Certificate)
    (c : Certificate) (days : Int) :
    ∃ before after,
      VerifyExpiration clock ⟨pre⟩ none days = some (before, none) ∧
      VerifyExpiration clock ⟨pre ++ c :: post⟩ none days =
        some (before ++
          ((recordReport (stillValidAt (clock 0) days)
              (clock (1 + pre.countP (fun x => x.NotAfter.isSome))) days c).toList ++ after),
          none) := by
  refine ⟨_, (recordReports clock (stillValidAt (clock 0) days) days
    (nextReading (1 + pre.countP (fun x => x.NotAfter.isSome)) c) post).reduceOption,
    VerifyExpiration_ok clock pre days, ?_⟩
  rw [VerifyExpiration_ok, recordReports_append_count, List.reduceOption_append]
  cases hr : recordReport (stillValidAt (clock 0) days)
      (clock (1 + pre.countP (fun x => x.NotAfter.isSome))) days c <;>
    simp [recordReports, hr, List.reduceOption_cons_of_none, List.reduceOption_cons_of_some]

/-- When the horizon is not after the current reading, only expiration decides. -/
theorem recordReport_of_horizon_le (h now : Time) (days : Int) (c : Certificate)
    (hle : h.unixNano ≤ now.unixNano) :
    recordReport h now days c = expiredReport now c := by
  cases hna : c.NotAfter with
  | none => simp [recordReport, expiredReport, hna]
  | some notAfter =>
    by_cases h1 : now.After notAfter = true
    · simp [recordReport, expiredReport, hna, h1]
    · have h2 : h.After notAfter = false := by
        simp only [Time.After, decide_eq_true_eq, decide_eq_false_iff_not] at h1 ⊢
        omega
      simp [recordReport, expiredReport, hna, h1, h2]

theorem expiredReport_some (now : Time) (c : Certificate) (r : CertificateError)
    (hr : expiredReport now c = some r) : r.Reason = expiredMsg := by
  cases hna : c.NotAfter with
  | none => simp [expiredReport, hna] at hr
  | some notAfter =>
    by_cases h1 : now.After notAfter = true
    · simp [expiredReport, hna, h1] at hr
      rw [← hr]
      rfl
    · simp [expiredReport, hna, h1] at hr

/-- With a threshold from -106751 to 0 days the computed horizon is not after the reading
from which it was computed. -/
theorem stillValidAt_le_of_nonpos (now : Time) (days : Int)
    (h1 : -106751 ≤ days) (h2 : days ≤ 0) :
    (stillValidAt now days).unixNano ≤ now.unixNano := by
  rw [stillValidAt_eq_exactHorizon now days h1 (by omega)]
  simp only [exactHorizon]
  omega

/-- Within the range of exact products the computed horizon grows with the threshold. -/
theorem stillValidAt_mono (now : Time) (d1 d2 : Int)
    (h1 : -106751 ≤ d1) (h12 : d1 ≤ d2) (h2 : d2 ≤ 106751) :
    (stillValidAt now d1).unixNano ≤ (stillValidAt now d2).unixNano := by
  rw [stillValidAt_eq_exactHorizon now d1 h1 (by omega),
    stillValidAt_eq_exactHorizon now d2 (by omega) h2]
  simp only [exactHorizon]
  omega

/-- The reports that carry the expired reason do not depend on the horizon or on the
threshold. -/
theorem filter_expired_indep (now h1 h2 : Time) (d1 d2 : Int) (items : List Certificate) :
    (items.filterMap (recordReport h1 now d1)).filter (fun r => r.Reason == expiredMsg) =
      (items.filterMap (recordReport h2 now d2)).filter (fun r => r.Reason == expiredMsg) := by
  have hn1 := aboutToExpireMsg_ne_expiredMsg d1
  have hn2 := aboutToExpireMsg_ne_expiredMsg d2
  induction items with
  | nil => rfl
  | cons c cs ih =>
    cases hna : c.NotAfter with
    | none => simpa [List.filterMap_cons, recordReport, hna] using ih
    | some notAfter =>
      by_cases e : now.After notAfter = true <;>
      by_cases a1 : h1.After notAfter = true <;>
      by_cases a2 : h2.After notAfter = true <;>
      simp [List.filterMap_cons, recordReport, hna, e, a1, a2, List.filter_cons, reportOf,
        hn1, hn2, ih]

/-- The records kept by a partial map, paired with their images. -/
theorem forall₂_filter_filterMap {α β : Type} (f : α → Option β) (l : List α) :
    List.Forall₂ (fun a b => f a = some b) (l.filter (fun a => (f a).isSome))
      (l.filterMap f) := by
  induction l with
  | nil => exact List.Forall₂.nil
  | cons a l ih =>
    cases hf : f a with
    | none => simpa [List.filter_cons, List.filterMap_cons, hf] using ih
    | some b =>
      simp only [List.filter_cons, List.filterMap_cons, hf, Option.isSome_some, if_true]
      exact List.Forall₂.cons hf ih

/-! ## State of the loop when it reaches a record -/

/-- The loop state after a list of records: the reports of the declarative pass have been
appended, and one clock reading has been taken for every record with a timestamp. -/
theorem forRange_eq_count (clock : Nat → Time) (stillValid : Time) (days : Int)
    (items : List Certificate) (s : LoopState) :
    forRange clock stillValid days s items =
      some ⟨s.certificateErrors ++
              (recordReports clock stillValid days s.readings items).reduceOption,
            s.readings + items.countP (fun x => x.NotAfter.isSome)⟩ := by
  induction items generalizing s with
  | nil => simp [forRange, recordReports]
  | cons c cs ih =>
    have hk : nextReading s.readings c + cs.countP (fun x => x.NotAfter.isSome) =
        s.readings + (c :: cs).countP (fun x => x.NotAfter.isSome) := by
      rw [List.countP_cons]
      unfold nextReading
      split <;> omega
    simp only [forRange, loopBody_eq, ih, recordReports, hk]
    cases recordReport stillValid (clock s.readings) days c <;>
      simp [List.reduceOption_cons_of_none, List.reduceOption_cons_of_some]

/-- Entry `i` of the declarative pass is what record `i` yields at the reading taken for
it: `k` readings before the pass, one more for each earlier record with a timestamp. -/
theorem recordReports_getElem (clock : Nat → Time) (h : Time) (days : Int)
    (items : List Certificate) (k i : Nat) (c : Certificate) (hc : items[i]? = some c) :
    (recordReports clock h days k items)[i]? =
      some (recordReport h
        (clock (k + (items.take i).countP (fun x => x.NotAfter.isSome))) days c) := by
  induction items generalizing k i with
  | nil => simp at hc
  | cons x xs ih =>
    cases i with
    | zero =>
      simp only [List.getElem?_cons_zero, Option.some.injEq] at hc
      simp [recordReports, hc]
    | succ j =>
      simp only [List.getElem?_cons_succ] at hc
      have hk : nextReading k x + (xs.take j).countP (fun x => x.NotAfter.isSome) =
          k + ((x :: xs).take (j + 1)).countP (fun x => x.NotAfter.isSome) := by
        rw [List.take_succ_cons, List.countP_cons]
        unfold nextReading
        split <;> omega
      simp only [recordReports, List.getElem?_cons_succ, ih (nextReading k x) j hc, hk]

/-- One iteration on a record with a timestamp, in terms of the values of `msg`. -/
theorem loopBody_msgTrace (clock : Nat → Time) (stillValid : Time) (days : Int)
    (s : LoopState) (c : Certificate) (notAfter : Time) (hna : c.NotAfter = some notAfter) :
    loopBody clock stillValid days s c =
      if (msgTrace stillValid (clock s.readings) days notAfter).2 ≠ "" then
        some ⟨s.certificateErrors ++
          [reportOf c notAfter (msgTrace stillValid (clock s.readings) days notAfter).2],
          s.readings + 1⟩
      else some ⟨s.certificateErrors, s.readings + 1⟩ := by
  simp only [loopBody, hna, msgTrace, reportOf]
  split <;> simp_all

/-- The expiration-only classification, written with the option combinators: keep the
timestamp if `now` is strictly after it, then build the expired report. -/
theorem expiredReport_eq_filter (now : Time) (c : Certificate) :
    expiredReport now c =
      (c.NotAfter.filter (fun notAfter => now.After notAfter)).map
        (fun notAfter => reportOf c notAfter expiredMsg) := by
  cases hna : c.NotAfter with
  | none => simp [expiredReport, hna, Option.filter]
  | some notAfter =>
    by_cases h1 : now.After notAfter = true <;> simp [expiredReport, hna, h1, Option.filter]

theorem expiredReport_isSome (now : Time) (c : Certificate) :
    (expiredReport now c).isSome = true ↔
      ∃ notAfter, c.NotAfter = some notAfter ∧ now.After notAfter = true := by
  cases hna : c.NotAfter with
  | none => simp [expiredReport, hna]
  | some notAfter =>
    by_cases h1 : now.After notAfter = true <;> simp [expiredReport, hna, h1]

/-- With the threshold 0 and a clock that advances between line 49 and line 58, a record
that expires at the first reading gets the expired message written onto an empty
candidate. -/
theorem msgTrace_empty_candidate_when_clock_advances :
    tickingClock 0 = ⟨1602843000000000000⟩ ∧
    (tickingClock 1).After ⟨1602843000000000000⟩ = true ∧
    msgTrace (stillValidAt (tickingClock 0) 0) (tickingClock 1) 0 ⟨1602843000000000000⟩ =
      ("", expiredMsg) ∧
    VerifyExpiration tickingClock ⟨[expiringNowCert]⟩ none 0 =
      some ([reportOf expiringNowCert ⟨1602843000000000000⟩ expiredMsg], none) := by
  decide

/-! ## Claims -/

set_option maxRecDepth 20000

/-- C1 (evaluation at a failing input). With the clock standing at `sampleNow` and the
threshold 106752 days, the record `toExpireCert` has an expiration timestamp that the
exact horizon `now + days*24h` is strictly after, yet `VerifyExpiration` returns no report
for it: the 64-bit product `days * Hour * 24` wraps around to a negative duration, so the
computed horizon lies about 292 years in the past. -/
theorem C1_report_missing_when_duration_wraps :
    toExpireCert.NotAfter = some ⟨1603447800000000000⟩ ∧
    (exactHorizon sampleNow 106752).After ⟨1603447800000000000⟩ = true ∧
    (stillValidAt sampleNow 106752).unixNano - sampleNow.unixNano = -9223371273709551616 ∧
    VerifyExpiration sampleClock ⟨[toExpireCert]⟩ none 106752 = some ([], none) := by
  decide

/-- C2. For every threshold, every clock with non-decreasing readings and every record
whose expiration timestamp is strictly before the time at which the call starts, the
output consists of the reports of the preceding records, then the report of that record
with the reason "Certificate is expired and should be renewed or revoked", then the
reports of the following records. -/
theorem C2_expired_record_reported (clock : Nat → Time) (pre post : List Certificate)
    (c : Certificate) (notAfter : Time) (days : Int)
    (hmono : ∀ i j : Nat, i ≤ j → (clock i).unixNano ≤ (clock j).unixNano)
    (hna : c.NotAfter = some notAfter)
    (hpast : notAfter.unixNano < (clock 0).unixNano) :
    ∃ before after,
      VerifyExpiration clock ⟨pre⟩ none days = some (before, none) ∧
      VerifyExpiration clock ⟨pre ++ c :: post⟩ none days =
        some (before ++
          { DNSNames := c.DNSNames, Namespace := c.Namespace, CertificateName := c.Name,
            ExpirationDate := notAfter,
            Reason := "Certificate is expired and should be renewed or revoked",
            Owner := "" } :: after, none) := by
  obtain ⟨before, after, k, h1, h2⟩ := VerifyExpiration_split clock pre post c days
  refine ⟨before, after, h1, ?_⟩
  have hk : (clock k).After notAfter = true := by
    have := hmono 0 k (Nat.zero_le k)
    simp only [Time.After, decide_eq_true_eq]
    omega
  rw [h2]
  simp [recordReport, hna, hk, reportOf, expiredMsg]

theorem C2_expired_record_reported_witness :
    (∀ i j : Nat, i ≤ j → (sampleClock i).unixNano ≤ (sampleClock j).unixNano) ∧
    expiredCert.NotAfter = some ⟨1287223800000000000⟩ ∧
    (⟨1287223800000000000⟩ : Time).unixNano < (sampleClock 0).unixNano ∧
    ∃ before after,
      VerifyExpiration sampleClock ⟨[pendingCert]⟩ none (-5) = some (before, none) ∧
      VerifyExpiration sampleClock ⟨[pendingCert] ++ expiredCert :: [toExpireCert]⟩ none (-5) =
        some (before ++
          { DNSNames := expiredCert.DNSNames, Namespace := expiredCert.Namespace,
            CertificateName := expiredCert.Name,
            ExpirationDate := ⟨1287223800000000000⟩,
            Reason := "Certificate is expired and should be renewed or revoked",
            Owner := "" } :: after, none) :=
  ⟨fun _ _ _ => le_refl _, rfl, by decide,
    C2_expired_record_reported sampleClock [pendingCert] [toExpireCert] expiredCert
      ⟨1287223800000000000⟩ (-5) (fun _ _ _ => le_refl _) rfl (by decide)⟩

/-- C3 (evaluation at a failing input). With the clock standing at `sampleNow`, the record
`toExpireCert` expires strictly after now and strictly before `now + days*24h` for the
threshold 106752, yet `VerifyExpiration` reports only the expired record of the list and
not `toExpireCert`; with the threshold 106751 it does report it, citing 106751. -/
theorem C3_expiring_record_dropped_when_duration_wraps :
    toExpireCert.NotAfter = some ⟨1603447800000000000⟩ ∧
    (⟨1603447800000000000⟩ : Time).After sampleNow = true ∧
    (exactHorizon sampleNow 106752).After ⟨1603447800000000000⟩ = true ∧
    VerifyExpiration sampleClock ⟨[expiredCert, toExpireCert, farExpireCert]⟩ none 106752 =
      some ([reportOf expiredCert ⟨1287223800000000000⟩
              "Certificate is expired and should be renewed or revoked"], none) ∧
    VerifyExpiration sampleClock ⟨[expiredCert, toExpireCert, farExpireCert]⟩ none 106751 =
      some ([reportOf expiredCert ⟨1287223800000000000⟩
              "Certificate is expired and should be renewed or revoked",
             reportOf toExpireCert ⟨1603447800000000000⟩
              "Certificate is about to expire in less than 106751 days",
             reportOf farExpireCert ⟨1634379000000000000⟩
              "Certificate is about to expire in less than 106751 days"], none) := by
  decide

/-- C4 (evaluation at a failing input). With the clock standing at `sampleNow` and the
threshold -106752, the record `farExpireCert` expires strictly after now and strictly
after `now + days*24h`, yet `VerifyExpiration` reports it: the 64-bit product wraps around
to a positive duration of about 292 years. -/
theorem C4_far_record_reported_when_duration_wraps :
    farExpireCert.NotAfter = some ⟨1634379000000000000⟩ ∧
    (⟨1634379000000000000⟩ : Time).After sampleNow = true ∧
    (⟨1634379000000000000⟩ : Time).After (exactHorizon sampleNow (-106752)) = true ∧
    (stillValidAt sampleNow (-106752)).unixNano - sampleNow.unixNano = 9223371273709551616 ∧
    VerifyExpiration sampleClock ⟨[farExpireCert]⟩ none (-106752) =
      some ([reportOf farExpireCert ⟨1634379000000000000⟩
              "Certificate is about to expire in less than -106752 days"], none) := by
  decide

/-- C5. For every list and threshold (and every clock) there is a list of outcomes aligned
with the input, entry `i` being either nothing or a report built from record `i`, such
that the returned sequence is that list with the empty entries removed; hence the source
records of the reports, in output order, are a sub-sequence of the input: the order is
preserved and no position of the input is reported twice. -/
theorem C5_output_order_preserving (clock : Nat → Time) (items : List Certificate)
    (days : Int) :
    ∃ outcomes : List (Option CertificateError),
      outcomes.length = items.length ∧
      (∀ (i : Nat) (c : Certificate) (r : CertificateError),
        items[i]? = some c → outcomes[i]? = some (some r) →
          ∃ notAfter, c.NotAfter = some notAfter ∧ r = reportOf c notAfter r.Reason) ∧
      VerifyExpiration clock ⟨items⟩ none days = some (outcomes.reduceOption, none) ∧
      ∃ kept : List Certificate, kept.Sublist items ∧
        List.Forall₂
          (fun c r => ∃ notAfter, c.NotAfter = some notAfter ∧ r = reportOf c notAfter r.Reason)
          kept outcomes.reduceOption := by
  refine ⟨recordReports clock (stillValidAt (clock 0) days) days 1 items,
    recordReports_length _ _ _ _ _, ?_, VerifyExpiration_ok clock items days,
    recordReports_kept _ _ _ _ _⟩
  intro i c r hc hr
  obtain ⟨k2, hk2⟩ := recordReports_aligned clock _ days items 1 i c r hc hr
  obtain ⟨notAfter, hna, -, hrep⟩ := recordReport_some _ _ days c r hk2
  refine ⟨notAfter, hna, ?_⟩
  rw [hrep]
  rfl

/-- C6. When the list call fails, `VerifyExpiration` returns no reports and the error
"Permission denied while getting the certificates" if the error is classified as
forbidden, and otherwise the error "Failed to communicate with Kubernetes cluster"; the
forbidden test decides first and the two messages differ. -/
theorem C6_list_failure_messages (clock : Nat → Time) (list : CertificateList)
    (e : APIError) (days : Int) :
    VerifyExpiration clock list (some e) days =
      some ([], some (if IsForbidden (some e) = true
        then "Permission denied while getting the certificates"
        else "Failed to communicate with Kubernetes cluster")) ∧
    "Permission denied while getting the certificates" ≠
      "Failed to communicate with Kubernetes cluster" := by
  refine ⟨?_, by decide⟩
  by_cases hf : IsForbidden (some e) = true <;> simp [VerifyExpiration, hf]

/-- C7. `VerifyExpiration` always returns (it does not panic); the returned error is
non-nil if and only if the list call returned an error; when it is non-nil the returned
sequence is empty; so a successful list call gives the nil error for every list and every
integer threshold. -/
theorem C7_error_iff_list_failed (clock : Nat → Time) (list : CertificateList)
    (err : Option APIError) (days : Int) :
    ∃ out e, VerifyExpiration clock list err days = some (out, e) ∧
      (e.isSome = true ↔ err.isSome = true) ∧
      (e.isSome = true → out = []) := by
  cases err with
  | some a =>
    refine ⟨[], _, (VerifyExpiration_failed clock list a days), by simp, by simp⟩
  | none =>
    obtain ⟨items⟩ := list
    exact ⟨_, none, VerifyExpiration_ok clock items days, by simp, by simp⟩

/-- C8. For every threshold, a successful list call with an empty collection gives an
empty report sequence and the nil error. -/
theorem C8_empty_list (clock : Nat → Time) (days : Int) :
    VerifyExpiration clock ⟨[]⟩ none days = some ([], none) := by
  simp [VerifyExpiration, IsForbidden]

/-- C9. Every report returned by `VerifyExpiration` is built from a record of the list:
same DNS names, namespace of the record, name of the record, the record's `NotAfter`
value as expiration date, and an empty `Owner`. -/
theorem C9_report_built_from_record (clock : Nat → Time) (list : CertificateList)
    (err : Option APIError) (days : Int) (out : List CertificateError) (e : Option String)
    (h : VerifyExpiration clock list err days = some (out, e))
    (r : CertificateError) (hr : r ∈ out) :
    ∃ c ∈ list.Items,
      r.DNSNames = c.DNSNames ∧ r.Namespace = c.Namespace ∧ r.CertificateName = c.Name ∧
      c.NotAfter = some r.ExpirationDate ∧ r.Owner = "" := by
  obtain ⟨c, hc, k, hk⟩ := VerifyExpiration_mem clock list err days out e h r hr
  obtain ⟨notAfter, hna, -, hrep⟩ := recordReport_some _ _ days c r hk
  refine ⟨c, hc, ?_⟩
  rw [hrep]
  simp [reportOf, hna]

theorem C9_report_built_from_record_witness :
    VerifyExpiration sampleClock ⟨[pendingCert, toExpireCert]⟩ none 10 =
      some ([reportOf toExpireCert ⟨1603447800000000000⟩
              "Certificate is about to expire in less than 10 days"], none) ∧
    (reportOf toExpireCert ⟨1603447800000000000⟩
        "Certificate is about to expire in less than 10 days") ∈
      [reportOf toExpireCert ⟨1603447800000000000⟩
        "Certificate is about to expire in less than 10 days"] ∧
    ∃ c ∈ [pendingCert, toExpireCert],
      ["toexpire.bla.com", "toexpire.blo.com"] = c.DNSNames ∧ "bla2" = c.Namespace ∧
      "toexpirecert" = c.Name ∧ c.NotAfter = some ⟨1603447800000000000⟩ ∧ "" = "" :=
  ⟨by decide, List.mem_singleton_self _,
    C9_report_built_from_record sampleClock ⟨[pendingCert, toExpireCert]⟩ none 10
      [reportOf toExpireCert ⟨1603447800000000000⟩
        "Certificate is about to expire in less than 10 days"] none
      (by decide) _ (List.mem_singleton_self _)⟩

/-- C10. The reason of every report returned by `VerifyExpiration` is non-empty and is
either "Certificate is expired and should be renewed or revoked" or "Certificate is about
to expire in less than <days> days" with the decimal threshold of the call; and when all
clock readings are the same instant `now`, the report comes from a record whose `NotAfter`
is the report's expiration date, its reason is the expired message exactly when `now` is
strictly after that date and the about-to-expire message exactly when it is not. -/
theorem C10_reason_templates (clock : Nat → Time) (list : CertificateList)
    (err : Option APIError) (days : Int) (out : List CertificateError) (e : Option String)
    (h : VerifyExpiration clock list err days = some (out, e))
    (r : CertificateError) (hr : r ∈ out) :
    r.Reason ≠ "" ∧
    (r.Reason = "Certificate is expired and should be renewed or revoked" ∨
      r.Reason = "Certificate is about to expire in less than " ++ toString days ++ " days") ∧
    ∀ now : Time, (∀ k, clock k = now) →
      ∃ c ∈ list.Items, c.NotAfter = some r.ExpirationDate ∧
        r = reportOf c r.ExpirationDate r.Reason ∧
        (r.Reason = "Certificate is expired and should be renewed or revoked" ↔
          now.After r.ExpirationDate = true) ∧
        (r.Reason = "Certificate is about to expire in less than " ++ toString days ++ " days" ↔
          now.After r.ExpirationDate = false) := by
  obtain ⟨c, hc, k, hk⟩ := VerifyExpiration_mem clock list err days out e h r hr
  obtain ⟨notAfter, hna, -, hrep⟩ := recordReport_some _ _ days c r hk
  have hne := aboutToExpireMsg_ne_expiredMsg days
  have hne1 := aboutToExpireMsg_ne_empty days
  have hne2 := expiredMsg_ne_empty
  have hA : aboutToExpireMsg days =
      "Certificate is about to expire in less than " ++ toString days ++ " days" := rfl
  have hE : expiredMsg = "Certificate is expired and should be renewed or revoked" := rfl
  rw [hA] at hne hne1
  rw [hE] at hne hne2
  have hdate : r.ExpirationDate = notAfter := by rw [hrep]; rfl
  have hreason : r.Reason =
      if (clock k).After notAfter = true
      then "Certificate is expired and should be renewed or revoked"
      else "Certificate is about to expire in less than " ++ toString days ++ " days" := by
    rw [hrep]; rfl
  refine ⟨?_, ?_, ?_⟩
  · rw [hreason]
    split
    · exact hne2
    · exact hne1
  · rw [hreason]
    split
    · exact Or.inl rfl
    · exact Or.inr rfl
  · intro now hnow
    refine ⟨c, hc, by rw [hdate]; exact hna, ?_, ?_, ?_⟩
    · rw [hrep]
      rfl
    · rw [hreason, hdate, hnow k]
      by_cases hb : now.After notAfter = true
      · simp [hb]
      · simp [hb, hne]
    · rw [hreason, hdate, hnow k]
      by_cases hb : now.After notAfter = true
      · simp only [hb, if_true]
        constructor
        · intro h1
          exact absurd h1.symm hne
        · intro h1
          exact absurd h1 (by simp)
      · simp [hb]

theorem C10_reason_templates_witness :
    VerifyExpiration sampleClock ⟨[expiredCert, farExpireCert]⟩ none 600 =
      some ([reportOf expiredCert ⟨1287223800000000000⟩
              "Certificate is expired and should be renewed or revoked",
             reportOf farExpireCert ⟨1634379000000000000⟩
              "Certificate is about to expire in less than 600 days"], none) ∧
    (reportOf farExpireCert ⟨1634379000000000000⟩
        "Certificate is about to expire in less than 600 days").Reason ≠ "" ∧
    (∀ k, sampleClock k = sampleNow) ∧
    ((reportOf farExpireCert ⟨1634379000000000000⟩
        "Certificate is about to expire in less than 600 days").Reason =
        "Certificate is about to expire in less than " ++ toString (600 : Int) ++ " days" ↔
      sampleNow.After ⟨1634379000000000000⟩ = false) :=
  have hrun : VerifyExpiration sampleClock ⟨[expiredCert, farExpireCert]⟩ none 600 =
      some ([reportOf expiredCert ⟨1287223800000000000⟩
              "Certificate is expired and should be renewed or revoked",
             reportOf farExpireCert ⟨1634379000000000000⟩
              "Certificate is about to expire in less than 600 days"], none) := by decide
  have hall := C10_reason_templates sampleClock ⟨[expiredCert, farExpireCert]⟩ none 600 _ none
    hrun (reportOf farExpireCert ⟨1634379000000000000⟩
      "Certificate is about to expire in less than 600 days") (by simp)
  ⟨hrun, hall.1, fun _ => rfl,
    (hall.2.2 sampleNow (fun _ => rfl)).choose_spec.2.2.2.2⟩

/-- C11 (evaluation at a failing input). For the threshold 106752 the horizon the code
computes is not the current time plus 106752 days: the exact horizon lies
9223372800000000000 ns after `sampleNow`, the computed one 9223371273709551616 ns before
it, because the 64-bit product `days * Hour * 24` wraps around. -/
theorem C11_horizon_wraps_at_106752_days :
    (exactHorizon sampleNow 106752).unixNano - sampleNow.unixNano = 106752 * 86400 * 1000000000 ∧
    (stillValidAt sampleNow 106752).unixNano - sampleNow.unixNano = -9223371273709551616 ∧
    stillValidAt sampleNow 106752 ≠ exactHorizon sampleNow 106752 ∧
    stillValidAt sampleNow 106751 = exactHorizon sampleNow 106751 := by
  decide

/-- C12 (counterexample). With the threshold -5 and the clock standing at `sampleNow`, the
record `yesterdayCert` is expired (now is strictly after its `NotAfter`) although neither
the exact horizon `now + days*24h` nor the horizon the code computes is after its
`NotAfter`: the expired message is written onto an empty candidate, and the record is
reported as expired. -/
theorem C12_expired_without_horizon_condition :
    yesterdayCert.NotAfter = some ⟨1602756600000000000⟩ ∧
    sampleNow.After ⟨1602756600000000000⟩ = true ∧
    (exactHorizon sampleNow (-5)).After ⟨1602756600000000000⟩ = false ∧
    (stillValidAt sampleNow (-5)).After ⟨1602756600000000000⟩ = false ∧
    VerifyExpiration sampleClock ⟨[yesterdayCert]⟩ none (-5) =
      some ([reportOf yesterdayCert ⟨1602756600000000000⟩
              "Certificate is expired and should be renewed or revoked"], none) := by
  decide

/-- C12 (amended). Take a threshold between -106751 and 106751 days, a run of
`VerifyExpiration` on `pre ++ c :: post` and a record `c` with an expiration timestamp,
such that the clock reading taken for `c` at line 58 is not after the first reading plus
`days*24h`.  If that reading is strictly after `NotAfter`, then the horizon computed at
line 49 is strictly after `NotAfter` too; in the iteration for `c` the variable `msg`
holds the non-empty about-to-expire candidate after the horizon test and the expired
message after the expiration test; the iteration appends the expired report of `c`; and
that report stands in the output right after the reports of `pre`.  The values of `msg`
are those of the loop body, for every state and every record with a timestamp. -/
theorem C12_expired_overwrites_candidate (clock : Nat → Time) (pre post : List Certificate)
    (c : Certificate) (notAfter : Time) (days : Int)
    (h1 : -106751 ≤ days) (h2 : days ≤ 106751)
    (hna : c.NotAfter = some notAfter)
    (hwin : (clock (1 + pre.countP (fun x => x.NotAfter.isSome))).unixNano ≤
      (clock 0).unixNano + days * 86400000000000)
    (hexp : (clock (1 + pre.countP (fun x => x.NotAfter.isSome))).After notAfter = true) :
    (stillValidAt (clock 0) days).After notAfter = true ∧
    aboutToExpireMsg days ≠ "" ∧
    (∃ s, forRange clock (stillValidAt (clock 0) days) days ⟨[], 1⟩ pre = some s ∧
      s.readings = 1 + pre.countP (fun x => x.NotAfter.isSome) ∧
      msgTrace (stillValidAt (clock 0) days) (clock s.readings) days notAfter =
        (aboutToExpireMsg days, expiredMsg) ∧
      loopBody clock (stillValidAt (clock 0) days) days s c =
        some ⟨s.certificateErrors ++ [reportOf c notAfter expiredMsg], s.readings + 1⟩) ∧
    (∀ (s : LoopState) (c2 : Certificate) (na2 : Time), c2.NotAfter = some na2 →
      loopBody clock (stillValidAt (clock 0) days) days s c2 =
        if (msgTrace (stillValidAt (clock 0) days) (clock s.readings) days na2).2 ≠ "" then
          some ⟨s.certificateErrors ++
            [reportOf c2 na2
              (msgTrace (stillValidAt (clock 0) days) (clock s.readings) days na2).2],
            s.readings + 1⟩
        else some ⟨s.certificateErrors, s.readings + 1⟩) ∧
    ∃ before after,
      VerifyExpiration clock ⟨pre⟩ none days = some (before, none) ∧
      VerifyExpiration clock ⟨pre ++ c :: post⟩ none days =
        some (before ++
          reportOf c notAfter "Certificate is expired and should be renewed or revoked" ::
            after, none) := by
  have heq := stillValidAt_eq_exactHorizon (clock 0) days h1 h2
  have hh : (stillValidAt (clock 0) days).After notAfter = true := by
    rw [heq]
    simp only [Time.After, exactHorizon, decide_eq_true_eq] at hexp ⊢
    omega
  refine ⟨hh, aboutToExpireMsg_ne_empty days, ?_, ?_, ?_⟩
  · refine ⟨_, forRange_eq_count clock _ days pre ⟨[], 1⟩, rfl, ?_, ?_⟩
    · simp [msgTrace, hh, hexp]
    · rw [loopBody_msgTrace clock _ days _ c notAfter hna]
      simp [msgTrace, hexp, expiredMsg_ne_empty]
  · intro s c2 na2 hna2
    exact loopBody_msgTrace clock _ days s c2 na2 hna2
  · obtain ⟨before, after, hpre, hall⟩ := VerifyExpiration_split_at clock pre post c days
    refine ⟨before, after, hpre, ?_⟩
    rw [hall]
    simp [recordReport, hna, hexp, expiredMsg]

theorem C12_expired_overwrites_candidate_witness :
    (-106751 : Int) ≤ 10 ∧ (10 : Int) ≤ 106751 ∧
    expiredCert.NotAfter = some ⟨1287223800000000000⟩ ∧
    (tickingClock (1 + [pendingCert, toExpireCert].countP
        (fun x => x.NotAfter.isSome))).unixNano ≤
      (tickingClock 0).unixNano + 10 * 86400000000000 ∧
    (tickingClock (1 + [pendingCert, toExpireCert].countP
        (fun x => x.NotAfter.isSome))).After ⟨1287223800000000000⟩ = true ∧
    (stillValidAt (tickingClock 0) 10).After ⟨1287223800000000000⟩ = true ∧
    ∃ before after,
      VerifyExpiration tickingClock ⟨[pendingCert, toExpireCert]⟩ none 10 =
        some (before, none) ∧
      VerifyExpiration tickingClock
          ⟨[pendingCert, toExpireCert] ++ expiredCert :: [farExpireCert]⟩ none 10 =
        some (before ++
          reportOf expiredCert ⟨1287223800000000000⟩
            "Certificate is expired and should be renewed or revoked" :: after, none) :=
  have hall := C12_expired_overwrites_candidate tickingClock [pendingCert, toExpireCert]
    [farExpireCert] expiredCert ⟨1287223800000000000⟩ 10
    (by decide) (by decide) rfl (by decide) (by decide)
  ⟨by decide, by decide, rfl, by decide, by decide, hall.1, hall.2.2.2.2⟩

/-- C15. `VerifyExpiration` returns for every clock, list result and threshold: it never
panics.  No loop iteration panics; an iteration on a record without `NotAfter` leaves the
message empty, reads no clock and appends nothing; an iteration that appends a report
does so for a record whose `NotAfter` is present, with that value as expiration date; and
both formatted messages are non-empty. -/
theorem C15_NotAfter_dereference_safe :
    (∀ (clock : Nat → Time) (list : CertificateList) (err : Option APIError) (days : Int),
      ∃ out e, VerifyExpiration clock list err days = some (out, e)) ∧
    (∀ (clock : Nat → Time) (stillValid : Time) (days : Int) (s : LoopState)
        (c : Certificate),
      ∃ s1, loopBody clock stillValid days s c = some s1 ∧
        (c.NotAfter = none → s1 = s) ∧
        (s1.certificateErrors ≠ s.certificateErrors →
          ∃ notAfter reason, c.NotAfter = some notAfter ∧ reason ≠ "" ∧
            s1.certificateErrors = s.certificateErrors ++ [reportOf c notAfter reason])) ∧
    (∀ days : Int, aboutToExpireMsg days ≠ "") ∧
    expiredMsg ≠ "" := by
  refine ⟨?_, ?_, aboutToExpireMsg_ne_empty, expiredMsg_ne_empty⟩
  · intro clock list err days
    cases err with
    | some a => exact ⟨[], _, VerifyExpiration_failed clock list a days⟩
    | none =>
      obtain ⟨items⟩ := list
      exact ⟨_, none, VerifyExpiration_ok clock items days⟩
  · intro clock stillValid days s c
    refine ⟨_, loopBody_eq clock stillValid days s c, ?_, ?_⟩
    · intro hna
      simp [recordReport, nextReading, hna]
    · intro hne
      cases hr : recordReport stillValid (clock s.readings) days c with
      | none => simp [hr] at hne
      | some r =>
        obtain ⟨notAfter, hna, -, hrep⟩ := recordReport_some _ _ days c r hr
        refine ⟨notAfter,
          (if (clock s.readings).After notAfter = true then expiredMsg
            else aboutToExpireMsg days), hna, ?_, ?_⟩
        · split
          · exact expiredMsg_ne_empty
          · exact aboutToExpireMsg_ne_empty days
        · simp [hr, hrep]

/-- C13. For a fixed list, a clock standing at `now` and thresholds `d1 ≤ d2` between
-106751 and 106751 days (the products `d*24h` fit in 64 bits): both calls return the
per-record reports in order; every record reported with `d1` is reported with `d2`; the
source records of the `d1` reports form a sub-sequence of those of the `d2` reports; and
the reports with the expired reason are the same list for both thresholds. -/
theorem C13_threshold_monotone (now : Time) (items : List Certificate) (d1 d2 : Int)
    (h1 : -106751 ≤ d1) (h12 : d1 ≤ d2) (h2 : d2 ≤ 106751) :
    ∃ out1 out2 kept1 kept2,
      VerifyExpiration (fun _ => now) ⟨items⟩ none d1 = some (out1, none) ∧
      VerifyExpiration (fun _ => now) ⟨items⟩ none d2 = some (out2, none) ∧
      out1 = items.filterMap (recordReport (stillValidAt now d1) now d1) ∧
      out2 = items.filterMap (recordReport (stillValidAt now d2) now d2) ∧
      (∀ c, (recordReport (stillValidAt now d1) now d1 c).isSome = true →
        (recordReport (stillValidAt now d2) now d2 c).isSome = true) ∧
      kept1 = items.filter (fun c => (recordReport (stillValidAt now d1) now d1 c).isSome) ∧
      kept2 = items.filter (fun c => (recordReport (stillValidAt now d2) now d2 c).isSome) ∧
      List.Forall₂ (fun c r => recordReport (stillValidAt now d1) now d1 c = some r)
        kept1 out1 ∧
      List.Forall₂ (fun c r => recordReport (stillValidAt now d2) now d2 c = some r)
        kept2 out2 ∧
      kept1.Sublist kept2 ∧
      out1.filter (fun r => r.Reason == "Certificate is expired and should be renewed or revoked") =
        out2.filter
          (fun r => r.Reason == "Certificate is expired and should be renewed or revoked") := by
  have hmono : ∀ c, (recordReport (stillValidAt now d1) now d1 c).isSome = true →
      (recordReport (stillValidAt now d2) now d2 c).isSome = true := by
    intro c hc
    rw [recordReport_isSome] at hc ⊢
    obtain ⟨notAfter, hna, hor⟩ := hc
    refine ⟨notAfter, hna, ?_⟩
    have hle := stillValidAt_mono now d1 d2 h1 h12 h2
    rcases hor with ha | he
    · left
      simp only [Time.After, decide_eq_true_eq] at ha ⊢
      omega
    · exact Or.inr he
  exact ⟨_, _, _, _, VerifyExpiration_const now items d1, VerifyExpiration_const now items d2,
    rfl, rfl, hmono, rfl, rfl, forall₂_filter_filterMap _ items,
    forall₂_filter_filterMap _ items, List.monotone_filter_right items hmono,
    filter_expired_indep now _ _ d1 d2 items⟩

theorem C13_threshold_monotone_witness :
    (-106751 : Int) ≤ 10 ∧ (10 : Int) ≤ 600 ∧ (600 : Int) ≤ 106751 ∧
    ∃ out1 out2 kept1 kept2,
      VerifyExpiration (fun _ => sampleNow)
        ⟨[expiredCert, toExpireCert, farExpireCert]⟩ none 10 = some (out1, none) ∧
      VerifyExpiration (fun _ => sampleNow)
        ⟨[expiredCert, toExpireCert, farExpireCert]⟩ none 600 = some (out2, none) ∧
      kept1 = [expiredCert, toExpireCert] ∧
      kept2 = [expiredCert, toExpireCert, farExpireCert] ∧
      kept1.Sublist kept2 ∧
      out1.filter (fun r => r.Reason == "Certificate is expired and should be renewed or revoked") =
        out2.filter
          (fun r => r.Reason == "Certificate is expired and should be renewed or revoked") :=
  ⟨by decide, by decide, by decide,
    match C13_threshold_monotone sampleNow [expiredCert, toExpireCert, farExpireCert] 10 600
      (by decide) (by decide) (by decide) with
    | ⟨out1, out2, kept1, kept2, r1, r2, _, _, _, k1, k2, _, _, hsub, hexp⟩ =>
      ⟨out1, out2, kept1, kept2, r1, r2, k1.trans (by decide), k2.trans (by decide),
        hsub, hexp⟩⟩

/-- C14. For every threshold from -106751 to 0 days, every clock with non-decreasing
readings and every list: the returned sequence is exactly a list of outcomes aligned with
the input, with the empty entries removed, where the outcome of record `i` is the report
of that record with the expired reason when its `NotAfter` is present and the clock
reading taken for it (one reading before the loop, one for each earlier record with a
timestamp) is strictly after it, and nothing otherwise.  So a record is reported exactly
when the reading taken for it is strictly after its `NotAfter`, every report has the
expired reason and none has the about-to-expire reason. -/
theorem C14_nonpositive_threshold_only_expired (clock : Nat → Time)
    (items : List Certificate) (days : Int)
    (hmono : ∀ i j : Nat, i ≤ j → (clock i).unixNano ≤ (clock j).unixNano)
    (h1 : -106751 ≤ days) (h2 : days ≤ 0) :
    ∃ aligned : List (Option CertificateError),
      aligned.length = items.length ∧
      (∀ (i : Nat) (c : Certificate), items[i]? = some c →
        aligned[i]? = some
          ((c.NotAfter.filter (fun notAfter =>
              (clock (1 + (items.take i).countP (fun x => x.NotAfter.isSome))).After
                notAfter)).map
            (fun notAfter => reportOf c notAfter
              "Certificate is expired and should be renewed or revoked"))) ∧
      VerifyExpiration clock ⟨items⟩ none days = some (aligned.reduceOption, none) ∧
      ∀ r ∈ aligned.reduceOption,
        r.Reason = "Certificate is expired and should be renewed or revoked" ∧
        r.Reason ≠ "Certificate is about to expire in less than " ++ toString days ++ " days" := by
  have hle : ∀ k, (stillValidAt (clock 0) days).unixNano ≤ (clock k).unixNano := by
    intro k
    have a := stillValidAt_le_of_nonpos (clock 0) days h1 h2
    have b := hmono 0 k (Nat.zero_le k)
    omega
  refine ⟨recordReports clock (stillValidAt (clock 0) days) days 1 items,
    recordReports_length _ _ _ _ _, ?_, VerifyExpiration_ok clock items days, ?_⟩
  · intro i c hc
    rw [recordReports_getElem clock _ days items 1 i c hc,
      recordReport_of_horizon_le _ _ days c (hle _), expiredReport_eq_filter]
    rfl
  · intro r hr
    obtain ⟨c1, -, k, hk⟩ := VerifyExpiration_mem clock ⟨items⟩ none days _ none
      (VerifyExpiration_ok clock items days) r hr
    rw [recordReport_of_horizon_le _ _ days c1 (hle k)] at hk
    have hreason : r.Reason = expiredMsg := expiredReport_some _ c1 r hk
    refine ⟨hreason, ?_⟩
    rw [hreason]
    exact fun h => aboutToExpireMsg_ne_expiredMsg days h.symm

theorem C14_nonpositive_threshold_only_expired_witness :
    (∀ i j : Nat, i ≤ j → (tickingClock i).unixNano ≤ (tickingClock j).unixNano) ∧
    (-106751 : Int) ≤ -5 ∧ (-5 : Int) ≤ 0 ∧
    VerifyExpiration tickingClock
        ⟨[pendingCert, toExpireCert, yesterdayCert, farExpireCert]⟩ none (-5) =
      some ([reportOf yesterdayCert ⟨1602756600000000000⟩
              "Certificate is expired and should be renewed or revoked"], none) ∧
    ∃ aligned : List (Option CertificateError),
      aligned.length = [pendingCert, toExpireCert, yesterdayCert, farExpireCert].length ∧
      (∀ (i : Nat) (c : Certificate),
        [pendingCert, toExpireCert, yesterdayCert, farExpireCert][i]? = some c →
        aligned[i]? = some
          ((c.NotAfter.filter (fun notAfter =>
              (tickingClock (1 + ([pendingCert, toExpireCert, yesterdayCert,
                  farExpireCert].take i).countP (fun x => x.NotAfter.isSome))).After
                notAfter)).map
            (fun notAfter => reportOf c notAfter
              "Certificate is expired and should be renewed or revoked"))) ∧
      VerifyExpiration tickingClock
          ⟨[pendingCert, toExpireCert, yesterdayCert, farExpireCert]⟩ none (-5) =
        some (aligned.reduceOption, none) ∧
      ∀ r ∈ aligned.reduceOption,
        r.Reason = "Certificate is expired and should be renewed or revoked" ∧
        r.Reason ≠
          "Certificate is about to expire in less than " ++ toString (-5 : Int) ++ " days" :=
  ⟨fun i j h => by simp only [tickingClock]; omega, by decide, by decide, by decide,
    C14_nonpositive_threshold_only_expired tickingClock
      [pendingCert, toExpireCert, yesterdayCert, farExpireCert] (-5)
      (fun i j h => by simp only [tickingClock]; omega) (by decide) (by decide)⟩

end CertExpiration
